import Mathlib

/-!
Shallow embedding of `src/utils/log_parser.py` (class `LogParser`) together
with proofs about its behavior.  Python dictionaries that either carry a
result or an error marker are modelled by the `Decoded` type below; machine
byte values are plain `Nat` (the parser never performs arithmetic that could
wrap).
-/

/-- Result of one of the three payload decoders: either the Python error
dictionary (carrying its message string) or a decoded record, mirroring the
dict-or-error-dict convention of `log_parser.py`. -/
inductive Decoded (α : Type) where
  | error (msg : String)
  | ok (a : α)
deriving DecidableEq, Repr

/-- Decoded count information, modelling the dict built by
`LogParser.parse_count_info`.  Keys that a branch does not set are `none`. -/
structure CountInfo where
  format : String
  raw_data : List Nat
  insert_count_last : Option Nat := none
  deposit_count_last : Option Nat := none
  reject_count_last : Option Nat := none
  insert_try_count : Option Nat := none
  insert_count_total : Option Nat := none
  deposit_count_total : Option Nat := none
  reject_count_total : Option Nat := none
  reject_count : Option Nat := none
  cassette_count : Option Nat := none
  drum1_count : Option Nat := none
  drum2_count : Option Nat := none
  drum3_count : Option Nat := none
  drum4_count : Option Nat := none
  cassette_count_last : Option Nat := none
  drum_direction : Option String := none
  drum1_count_last : Option Nat := none
  drum2_count_last : Option Nat := none
  drum3_count_last : Option Nat := none
  drum4_count_last : Option Nat := none
  cassette_count_total : Option Nat := none
  drum1_count_total : Option Nat := none
  drum2_count_total : Option Nat := none
  drum3_count_total : Option Nat := none
  drum4_count_total : Option Nat := none
deriving DecidableEq, Repr, Inhabited

/-- Model of `LogParser.parse_count_info`: event 0x24 count decoding.  Python list
slicing `hex_data[3:]` is `List.drop 3`, `data[i]` is `List.getD i 0`
(always in bounds in the branches that use it), and `x << 8` is `x * 256`. -/
def parse_count_info (hex_data : List Nat) : Decoded CountInfo :=
  if hex_data.length < 4 then .error "Неполные данные счета"
  else if hex_data.length < 3 + 4 then .error "Неполные данные счета"
  else
    let data := hex_data.drop 3
    if 10 ≤ data.length ∧ data.length < 12 then
      .ok { format := "KD", raw_data := data
            insert_count_last := some (data.getD 0 0)
            deposit_count_last := some (data.getD 1 0)
            reject_count_last := some (data.getD 2 0)
            insert_try_count := some (data.getD 3 0)
            insert_count_total :=
              if 10 ≤ data.length then some (data.getD 4 0 + data.getD 5 0 * 256) else none
            deposit_count_total :=
              if 10 ≤ data.length then some (data.getD 6 0 + data.getD 7 0 * 256) else none
            reject_count_total :=
              if 10 ≤ data.length then some (data.getD 8 0 + data.getD 9 0 * 256) else none }
    else if data.length = 12 then
      .ok { format := "KR1", raw_data := data
            reject_count := some (data.getD 0 0 + data.getD 1 0 * 256)
            cassette_count := some (data.getD 2 0 + data.getD 3 0 * 256)
            drum1_count := some (data.getD 4 0 + data.getD 5 0 * 256)
            drum2_count := some (data.getD 6 0 + data.getD 7 0 * 256)
            drum3_count := some (data.getD 8 0 + data.getD 9 0 * 256)
            drum4_count := some (data.getD 10 0 + data.getD 11 0 * 256) }
    else if 15 ≤ data.length then
      .ok { format := "KR2", raw_data := data
            insert_count_last := some (data.getD 0 0)
            reject_count_last := some (data.getD 1 0)
            cassette_count_last := some (data.getD 2 0 + data.getD 3 0 * 256)
            drum_direction := some (if data.getD 4 0 = 1 then "Внесение" else "Выдача")
            drum1_count_last := some (data.getD 5 0)
            drum2_count_last := some (data.getD 6 0)
            drum3_count_last := some (data.getD 7 0)
            drum4_count_last := some (data.getD 8 0)
            cassette_count_total := some (data.getD 9 0 + data.getD 10 0 * 256)
            drum1_count_total := some (data.getD 11 0)
            drum2_count_total := some (data.getD 12 0)
            drum3_count_total := some (data.getD 13 0)
            drum4_count_total := some (data.getD 14 0) }
    else
      .ok { format := "неизвестный", raw_data := data }

/-- Spec-side definition (from the spec's words, for comparison with the
code): the count-info variant tag as a pure function of payload length —
lengths 10 or 11 give `KD`, exactly 12 gives `KR1`, 15 or more give `KR2`,
every other length is unrecognized. -/
def specCountFormat (L : Nat) : String :=
  if L = 10 ∨ L = 11 then "KD"
  else if L = 12 then "KR1"
  else if 15 ≤ L then "KR2"
  else "неизвестный"

/-- The `CountInfo` record produced for a length-13 byte sequence of zeros;
used to exercise the theorems on a concrete input. -/
def kdSample : CountInfo :=
  match parse_count_info (List.replicate 13 0) with
  | .ok r => r
  | .error _ => default

/-- The `dest_map` dictionary of `parse_banknote_info` with its `.get`
default. -/
def dest_map (n : Nat) : String :=
  match n with
  | 0 => "Reject"
  | 1 => "Cassette"
  | 2 => "Drum1"
  | 3 => "Drum2"
  | 4 => "Drum3"
  | 5 => "Drum4"
  | _ => "Неизвестно"

/-- The `sc_error_map` dictionary of `parse_banknote_info` with its `.get`
default. -/
def sc_error_map (n : Nat) : String :=
  match n with
  | 0 => "Нет"
  | 1 => "Ошибка распознавания"
  | 2 => "Результат отклонения - опция SC"
  | 3 => "Результат отклонения - потеря информации распознавания"
  | 4 => "Результат отклонения - Цепочка"
  | 5 => "Результат отклонения - Превышение размера"
  | 6 => "Результат отклонения - Неверный укладчик"
  | 7 => "Результат отклонения - Полная сумма партии"
  | 8 => "Результат отклонения - Полный счетчик номиналов"
  | 9 => "Результат отклонения - Несоответствие номинала банкноты"
  | _ => "Неизвестная ошибка"

/-- Decoded banknote information, modelling the dict built by
`LogParser.parse_banknote_info`. -/
structure BanknoteInfo where
  banknote_no : Nat
  recognition_code : List Nat
  recognition_error : List Nat
  encoder : List Nat
  note_destination : Nat
  reserved1 : Nat
  reserved2 : List Nat
  serial_size : Nat
  serial : List Nat
  denom_info : List Nat
  denom_use_flag : Nat
  decimal_point : Nat
  banknote_extens : List Nat
  sc_error : Nat
  destination_text : String
  sc_error_text : String
  serial_text : String
deriving DecidableEq, Repr, Inhabited

/-- Model of `LogParser.parse_banknote_info`: event 0x23 banknote decoding.  Python
slicing `data[a:b]` is `(data.drop a).take (b - a)`; `chr(b)` for a byte in
the printable ASCII range is `Char.ofNat b`. -/
def parse_banknote_info (hex_data : List Nat) : Decoded BanknoteInfo :=
  if hex_data.length < 58 then .error "Неполные данные о банкноте"
  else if hex_data.length < 3 + 58 then .error "Неполные данные о банкноте"
  else
    let data := hex_data.drop 3
    let serial_size := data.getD 16 0
    let serial := (data.drop 17).take 32
    .ok
      { banknote_no := data.getD 0 0
        recognition_code := (data.drop 1).take 4
        recognition_error := (data.drop 5).take 2
        encoder := (data.drop 7).take 4
        note_destination := data.getD 11 0
        reserved1 := data.getD 12 0
        reserved2 := (data.drop 13).take 3
        serial_size := serial_size
        serial := serial
        denom_info := (data.drop 49).take 4
        denom_use_flag := data.getD 53 0
        decimal_point := data.getD 54 0
        banknote_extens := (data.drop 55).take 2
        sc_error := data.getD 57 0
        destination_text := dest_map (data.getD 11 0)
        sc_error_text := sc_error_map (data.getD 57 0)
        serial_text :=
          if 0 < serial_size ∧ serial_size ≤ 32 then
            String.mk ((serial.take serial_size).map
              (fun b => if 32 ≤ b ∧ b ≤ 126 then Char.ofNat b else '?'))
          else "Н/Д" }

/-- The 58 decoded sub-fields of a `BanknoteInfo`, concatenated in layout
order (payload offsets 0 through 57). -/
def bnFieldsConcat (r : BanknoteInfo) : List Nat :=
  [r.banknote_no] ++ r.recognition_code ++ r.recognition_error ++ r.encoder ++
    [r.note_destination, r.reserved1] ++ r.reserved2 ++ [r.serial_size] ++
    r.serial ++ r.denom_info ++ [r.denom_use_flag, r.decimal_point] ++
    r.banknote_extens ++ [r.sc_error]

/-- The `BanknoteInfo` record produced for a length-61 byte sequence of
zeros; used to exercise the theorems on a concrete input. -/
def bnSample : BanknoteInfo :=
  match parse_banknote_info (List.replicate 61 0) with
  | .ok r => r
  | .error _ => default

/-- One entry of the `error_fields` table of `parse_error_info`. -/
structure FieldInfo where
  name : String
  description : String
  error_desc : String
  scope : String
deriving DecidableEq, Repr, Inhabited

/-- One decoded flag record stored under `result['fields'][name]` by
`parse_error_info`. -/
structure ErrorField where
  value : Nat
  description : String
  error_desc : String
  scope : String
  specific_desc : Option String := none
deriving DecidableEq, Repr, Inhabited

/-- The `error_fields` dict of `parse_error_info`.  Its keys are the
consecutive integers 0–59 in insertion order, so the dict is modelled as a
positional list: the entry at list index `i` is the entry with key `i`. -/
def error_fields : List FieldInfo :=
  [⟨"reverse_motor", "Реверсивный мотор", "Ошибка", "Только серия KDS"⟩,
   ⟨"insert_motor", "Мотор вставки", "Ошибка", "Только серия KDS"⟩,
   ⟨"main_trans_motor", "Основной транспортный мотор", "Ошибка", "Общее"⟩,
   ⟨"insert_pusher", "Толкатель вставки", "Ошибка", "Только серия KDS"⟩,
   ⟨"reject_shutter", "Шторка отклонения", "Ошибка", "Только серия KDS"⟩,
   ⟨"rail_switch", "Рельсовый переключатель", "Открыт", "Общее"⟩,
   ⟨"hopper_sensor", "Сенсор лотка", "Обнаружен сигнал", "Общее"⟩,
   ⟨"interval_control_sensor", "Сенсор контроля интервала", "Обнаружен сигнал", "Только серия KDS"⟩,
   ⟨"insert_sensor", "Сенсор вставки", "Обнаружен сигнал", "Общее"⟩,
   ⟨"sepa_sensor", "Сенсор SEPA", "Обнаружен сигнал", "Общее"⟩,
   ⟨"reject_counter_sensor", "Сенсор счетчика отклонений", "Обнаружен сигнал", "Общее"⟩,
   ⟨"deposit_counter_sensor", "Сенсор счетчика внесения", "Обнаружен сигнал", "Общее"⟩,
   ⟨"reject_pocket_sensor1", "Сенсор кармана отклонения 1 (внутренний)", "Обнаружен сигнал", "Общее"⟩,
   ⟨"reject_pocket_sensor2", "Сенсор кармана отклонения 2 (внешний)", "Обнаружен сигнал", "Только серия KDS"⟩,
   ⟨"upper_interface_board_connect", "Подключение верхней интерфейсной платы", "Ошибка", "Только серия KDS"⟩,
   ⟨"reco_communication", "Связь с системой распознавания", "Ошибка", "Общее"⟩,
   ⟨"fpga_communication", "Связь с FPGA", "Ошибка", "Общее"⟩,
   ⟨"hsc_communication", "Связь с HSC", "Ошибка", "Только серия KDS"⟩,
   ⟨"safebox_trans_motor", "Транспортный мотор сейфа", "Ошибка", "Только серия KDS"⟩,
   ⟨"safebox_door_switch", "Переключатель дверцы сейфа", "Открыт", "Общее"⟩,
   ⟨"safebox_deposit_counter_sensor", "Сенсор счетчика внесения в сейф", "Обнаружен сигнал", "Только серия KDS"⟩,
   ⟨"safebox_full_sensor", "Сенсор заполнения сейфа", "Полный", "Общее"⟩,
   ⟨"heatsealing_module", "Модуль термосклеивания или мотор конверта", "Ошибка", "Только серия KDS"⟩,
   ⟨"heatsealing_module_rail_switch", "Рельсовый переключатель модуля термосклеивания", "Открыт", "Только серия KDS"⟩,
   ⟨"canvas_bag_switch", "Переключатель холщового мешка или сенсор обнаружения виниловой сумки", "Открыт", "Общее"⟩,
   ⟨"envelope_deposit", "Внесение конверта (холщовый мешок)", "Ошибка", "Только серия KDS"⟩,
   ⟨"insert_pusher_up_sensor", "Сенсор верхнего положения толкателя вставки", "Ошибка", "Только серия KDS"⟩,
   ⟨"insert_pusher_down_sensor", "Сенсор нижнего положения толкателя вставки", "Ошибка", "Только серия KDS"⟩,
   ⟨"reject_shutter_open_sensor", "Сенсор открытия шторки отклонения", "Ошибка", "Только серия KDS"⟩,
   ⟨"reject_shutter_close_sensor", "Сенсор закрытия шторки отклонения", "Ошибка", "Только серия KDS"⟩,
   ⟨"insert_motor_check_sensor", "Сенсор проверки мотора вставки", "Ошибка", "Только серия KDS"⟩,
   ⟨"main_trans_motor_check_sensor", "Сенсор проверки основного транспортного мотора", "Ошибка", "Только серия KDS"⟩,
   ⟨"banknote_trans_fail", "Сбой транспортировки банкноты", "Ошибка", "Общее"⟩,
   ⟨"cassette_puser_error", "Ошибка толкателя кассеты", "Ошибка", "Только серия KD-Только кассета"⟩,
   ⟨"jam_sensor", "Сенсор замятия", "Обнаружен сигнал", "Только серия KD"⟩,
   ⟨"enter_sensor", "Сенсор входа", "Обнаружен сигнал", "Только серия KD"⟩,
   ⟨"cassette_count_sensor", "Сенсор счетчика кассеты", "Ошибка", "Только серия KD-Только кассета"⟩,
   ⟨"cassette_banknote_stay_error", "Ошибка остановки банкноты в кассете", "Ошибка", "Только серия KD-Только кассета"⟩,
   ⟨"l_path_sensor", "Сенсор L-пути", "Ошибка", "Только серия KR10"⟩,
   ⟨"l_jam1_sensor", "Сенсор замятия L1", "Ошибка", "Только серия KR10"⟩,
   ⟨"l_jam2_sensor", "Сенсор замятия L2", "Ошибка", "Только серия KR10"⟩,
   ⟨"l_jam3_sensor", "Сенсор замятия L3", "Ошибка", "Только серия KR10"⟩,
   ⟨"drum1_sensor", "Сенсор барабана 1", "Ошибка", "Только серия KR10"⟩,
   ⟨"drum2_sensor", "Сенсор барабана 2", "Ошибка", "Только серия KR10"⟩,
   ⟨"drum3_sensor", "Сенсор барабана 3", "Ошибка", "Только серия KR10"⟩,
   ⟨"drum4_sensor", "Сенсор барабана 4", "Ошибка", "Только серия KR10"⟩,
   ⟨"l_door_switch", "Переключатель L-дверцы", "Открыт", "Только серия KR10"⟩,
   ⟨"l_rail_switch", "Переключатель L-рельса", "Открыт", "Только серия KR10"⟩,
   ⟨"drum1_full_pi", "Индикатор заполнения барабана 1", "Ошибка", "Только серия KR10"⟩,
   ⟨"drum2_full_pi", "Индикатор заполнения барабана 2", "Ошибка", "Только серия KR10"⟩,
   ⟨"drum3_full_pi", "Индикатор заполнения барабана 3", "Ошибка", "Только серия KR10"⟩,
   ⟨"drum4_full_pi", "Индикатор заполнения барабана 4", "Ошибка", "Только серия KR10"⟩,
   ⟨"reserved1", "Зарезервировано", "", ""⟩,
   ⟨"reserved2", "Зарезервировано", "", ""⟩,
   ⟨"reserved3", "Зарезервировано", "", ""⟩,
   ⟨"reserved4", "Зарезервировано", "", ""⟩,
   ⟨"reserved5", "Зарезервировано", "", ""⟩,
   ⟨"reserved6", "Зарезервировано", "", ""⟩,
   ⟨"reserved7", "Зарезервировано", "", ""⟩,
   ⟨"reserved8", "Зарезервировано", "", ""⟩]

/-- The `banknote_trans_fail_desc` sub-code dict of `parse_error_info`
(14 entries: keys 0, 1–8 and 0x10–0x15). -/
def banknote_trans_fail_desc : List (Nat × String) :=
  [(0, "Нет"),
   (1, "Ошибка несоответствия BID"),
   (2, "Ошибка неправильного укладчика (для разделителя верхнего модуля)"),
   (3, "Ошибка разрыва банкноты"),
   (4, "Ошибка двойной цепочки"),
   (5, "Ошибка темной цепочки"),
   (6, "Ошибка белой цепочки"),
   (7, "Ошибка вставки"),
   (8, "Полная сумма партии"),
   (16, "Ошибка неправильного укладчика при отклонении (для выдачи)"),
   (17, "Ошибка неправильного укладчика кассеты"),
   (18, "Ошибка неправильного укладчика барабана 1"),
   (19, "Ошибка неправильного укладчика барабана 2"),
   (20, "Ошибка неправильного укладчика барабана 3"),
   (21, "Ошибка неправильного укладчика барабана 4")]

/-- Lookup in the sub-code dict with the unknown-error-code default, as in
the `.get` call with an f-string default in `parse_error_info`. -/
def btfLookup (v : Nat) : String :=
  (banknote_trans_fail_desc.lookup v).getD ("Неизвестный код ошибки: " ++ toString v)

/-- The flag record built for one table entry and one payload byte in the
loop body of `parse_error_info`. -/
def mkErrorField (fi : FieldInfo) (v : Nat) : ErrorField :=
  { value := v, description := fi.description, error_desc := fi.error_desc,
    scope := fi.scope,
    specific_desc :=
      if fi.name = "banknote_trans_fail" ∧ 0 < v then some (btfLookup v) else none }

/-- The active-error message contributed by one table entry and one payload
byte in the loop body of `parse_error_info` (`none` when the flag is not
active). -/
def flagMessage (fi : FieldInfo) (v : Nat) : Option String :=
  if fi.name = "banknote_trans_fail" ∧ 0 < v then
    some (fi.description ++ ": " ++ btfLookup v)
  else if v = 1 ∧ fi.error_desc ≠ "" then
    some (fi.description ++ ": " ++ fi.error_desc)
  else none

/-- The flag loop of `parse_error_info`: walks the table entry with key `i`
against payload byte `data[i]`, breaking as soon as `i` reaches the payload
length (the table keys ascend from 0, so the lockstep walk is exact).
Returns the `fields` assoc list, the `active_errors` list and the
`errors_detected` flag. -/
def errGo : List FieldInfo → List Nat → List (String × ErrorField) × List String × Bool
  | [], _ => ([], [], false)
  | _ :: _, [] => ([], [], false)
  | fi :: rest, v :: ds =>
    let t := errGo rest ds
    ((fi.name, mkErrorField fi v) :: t.1,
     (flagMessage fi v).toList ++ t.2.1,
     t.2.2 || (flagMessage fi v).isSome)

/-- The result dict of `parse_error_info`. -/
structure ErrorInfo where
  raw_data : List Nat
  errors_detected : Bool
  fields : List (String × ErrorField)
  active_errors : List String
  active_error_count : Nat
deriving DecidableEq, Repr, Inhabited

/-- Model of `LogParser.parse_error_info`: event error-flag decoding over the
60-entry table. -/
def parse_error_info (hex_data : List Nat) : Decoded ErrorInfo :=
  if hex_data.length < 4 then .error "Неполные данные об ошибках"
  else
    let data := hex_data.drop 3
    let t := errGo error_fields data
    .ok { raw_data := data, errors_detected := t.2.2, fields := t.1,
          active_errors := t.2.1, active_error_count := t.2.1.length }

/-- The table entry with key 32 (`banknote_trans_fail`). -/
def btfFieldInfo : FieldInfo := error_fields.getD 32 default

/-- The `ErrorInfo` record produced for the byte sequence `[0,0,0,1]`
(payload `[1]`: flag 0 active); used to exercise the theorems on a concrete
input. -/
def errSample : ErrorInfo :=
  match parse_error_info [0, 0, 0, 1] with
  | .ok r => r
  | .error _ => default

/-- A 36-byte sequence whose payload has byte 32 equal to 3 (all other
bytes zero). -/
def c4bs : List Nat := List.replicate 35 0 ++ [3]

/-- The `ErrorInfo` record produced for `c4bs`; used to exercise the
theorems on a concrete input. -/
def c4Sample : ErrorInfo :=
  match parse_error_info c4bs with
  | .ok r => r
  | .error _ => default

/-- ASCII model of Python's `\s` (`str.strip` / `str.split` whitespace). -/
def pyIsSpace (c : Char) : Bool :=
  c = ' ' || c = '\t' || c = '\n' || c = '\r' || c = '\x0b' || c = '\x0c'

/-- ASCII model of the regex class `\d`. -/
def isDigitChar (c : Char) : Bool :=
  48 ≤ c.toNat && c.toNat ≤ 57

/-- The regex class `[0-9A-F]` of the hex-dump line pattern. -/
def isUpHexChar (c : Char) : Bool :=
  isDigitChar c || (65 ≤ c.toNat && c.toNat ≤ 70)

/-- ASCII model of the regex class `\w`. -/
def isWordChar (c : Char) : Bool :=
  isDigitChar c || (65 ≤ c.toNat && c.toNat ≤ 90) ||
    (97 ≤ c.toNat && c.toNat ≤ 122) || c = '_'

/-- Value of one hex digit, as used by `int(x, 16)` (only ever applied to
characters in `[0-9A-F]`; other characters are unreachable there). -/
def hexDigitVal (c : Char) : Nat :=
  if 48 ≤ c.toNat ∧ c.toNat ≤ 57 then c.toNat - 48
  else if 65 ≤ c.toNat ∧ c.toNat ≤ 70 then c.toNat - 55
  else 0

/-- Value of `int(x, 16)` on a token of hex digits. -/
def hexVal (tok : List Char) : Nat :=
  tok.foldl (fun a c => 16 * a + hexDigitVal c) 0

/-- Python `str.strip()` (whitespace from both ends). -/
def pyStrip (s : List Char) : List Char :=
  ((s.dropWhile pyIsSpace).reverse.dropWhile pyIsSpace).reverse

/-- Python `str.split('\n')`: split at every newline, keeping empty
pieces. -/
def splitLines : List Char → List (List Char)
  | [] => [[]]
  | c :: t =>
    match splitLines t with
    | [] => [[c]]
    | l :: ls => if c = '\n' then [] :: l :: ls else (c :: l) :: ls

/-- Worker for Python `str.split()` with no separator: runs of whitespace
delimit tokens, empty tokens are dropped.  `curRev` is the current token,
reversed. -/
def splitWsGo : List Char → List Char → List (List Char)
  | curRev, [] => if curRev.isEmpty then [] else [curRev.reverse]
  | curRev, c :: t =>
    if pyIsSpace c then
      if curRev.isEmpty then splitWsGo [] t else curRev.reverse :: splitWsGo [] t
    else splitWsGo (c :: curRev) t

/-- Python `str.split()` with no separator. -/
def pySplitWs (s : List Char) : List (List Char) :=
  splitWsGo [] s

/-- Attempt to match the tail `\s*\n` of the block separator `\n\s*\n`
starting right after an initial newline: scan the maximal whitespace run
and return the remainder after the LAST newline in it (the greedy `\s*`
backtracks to the last place a closing `\n` fits), or `none` when the run
holds no newline. -/
def sepTailGo : List Char → Option (List Char)
  | [] => none
  | c :: t =>
    if pyIsSpace c then
      match sepTailGo t with
      | some r => some r
      | none => if c = '\n' then some t else none
    else none

/-- Fuelled scanner for `re.split(r'\n\s*\n', s)`: leftmost matches of the
separator split the text, scanning resumes after each match.  The fuel is
at least the length of the remaining text, so it never runs out. -/
def pySplitSep : Nat → List Char → List Char → List (List Char)
  | 0, accRev, s => [accRev.reverse ++ s]
  | _ + 1, accRev, [] => [accRev.reverse]
  | fuel + 1, accRev, c :: t =>
    if c = '\n' then
      match sepTailGo t with
      | some r => accRev.reverse :: pySplitSep fuel [] r
      | none => pySplitSep fuel (c :: accRev) t
    else pySplitSep fuel (c :: accRev) t

/-- Model of the Python call `re.split` with the blank-line separator
pattern, as used on the log text. -/
def pySplit (s : List Char) : List (List Char) :=
  pySplitSep s.length [] s

/-- Does `l` start with `pat`? -/
def startsWithSeq : List Char → List Char → Bool
  | [], _ => true
  | _ :: _, [] => false
  | p :: ps, c :: cs => p = c && startsWithSeq ps cs

/-- Python's substring test `pat in l`. -/
def containsSeq (pat : List Char) : List Char → Bool
  | [] => pat.isEmpty
  | c :: t => startsWithSeq pat (c :: t) || containsSeq pat t

/-- One item of the sequential patterns used by `parse_log`: a literal
character, or a one-or-more repetition of a character class (greedy or
lazy, capturing or not). -/
inductive RItem where
  | lit (c : Char)
  | plus (p : Char → Bool) (lazy : Bool) (cap : Bool)

/-- Candidate consumption lengths for a `+` repetition whose maximal
possible run is `m`: shortest first when lazy, longest first when greedy. -/
def tryLens (lazy : Bool) (m : Nat) : List Nat :=
  if lazy then List.range' 1 m else (List.range' 1 m).reverse

/-- Backtracking matcher for a sequence of items against a prefix of `s`
(trailing text is allowed, as with `re.match`).  Returns the captured
groups in item order. -/
def matchSeq : List RItem → List Char → Option (List (List Char))
  | [], _ => some []
  | .lit _ :: _, [] => none
  | .lit c :: rest, x :: t => if x = c then matchSeq rest t else none
  | .plus p lz cap :: rest, s =>
    (tryLens lz ((s.takeWhile p).length)).findSome? (fun k =>
      (matchSeq rest (s.drop k)).map (fun caps =>
        if cap then s.take k :: caps else caps))

/-- The character-class predicates of the capturing items, in order. -/
def capPreds : List RItem → List (Char → Bool)
  | [] => []
  | .lit _ :: rest => capPreds rest
  | .plus p _ cap :: rest => if cap then p :: capPreds rest else capPreds rest

/-- Shape check for the timestamp part `\d{2}:\d{2}:\d{2}\.\d{3}` of the
header pattern (deterministic, no backtracking). -/
def tsShape : List Char → Bool
  | [a, b, c, d, e, f, g, h, i, j, k, l] =>
    isDigitChar a && isDigitChar b && c = ':' && isDigitChar d && isDigitChar e &&
      f = ':' && isDigitChar g && isDigitChar h && i = '.' && isDigitChar j &&
      isDigitChar k && isDigitChar l
  | _ => false

/-- The six captured groups of the header pattern. -/
structure HeaderGroups where
  timestamp : List Char
  identifier : List Char
  event_type : List Char
  source_file : List Char
  line_number : List Char
  function : List Char
deriving DecidableEq, Repr, Inhabited

/-- The header pattern after the timestamp and `\|`:
`([^ ]+)\s+(.+?)\s+\(([^,]+),(\d+)\):(.+)`. -/
def headerItems : List RItem :=
  [.plus (fun c => c != ' ') false true,
   .plus pyIsSpace false false,
   .plus (fun c => c != '\n') true true,
   .plus pyIsSpace false false,
   .lit '(',
   .plus (fun c => c != ',') false true,
   .lit ',',
   .plus isDigitChar false true,
   .lit ')',
   .lit ':',
   .plus (fun c => c != '\n') false true]

/-- Model of `re.match` of the header pattern
`(\d{2}:\d{2}:\d{2}\.\d{3})\|([^ ]+)\s+(.+?)\s+\(([^,]+),(\d+)\):(.+)`. -/
def headerMatch (line : List Char) : Option HeaderGroups :=
  if tsShape (line.take 12) &&
      (match line.drop 12 with | '|' :: _ => true | _ => false) then
    match matchSeq headerItems (line.drop 13) with
    | some [ident, etype, sfile, lnum, func] =>
      some ⟨line.take 12, ident, etype, sfile, lnum, func⟩
    | _ => none
  else none

/-- The hex-dump line pattern `\w+h\s+([0-9A-F\s]+)\s+.+`. -/
def hexItems : List RItem :=
  [.plus isWordChar false false,
   .lit 'h',
   .plus pyIsSpace false false,
   .plus (fun c => isUpHexChar c || pyIsSpace c) false true,
   .plus pyIsSpace false false,
   .plus (fun c => c != '\n') false false]

/-- Model of `re.match` of the hex-dump line pattern, returning the captured hex
group. -/
def hexLineMatch (line : List Char) : Option (List Char) :=
  match matchSeq hexItems line with
  | some [g] => some g
  | _ => none

/-- One iteration of the hex-accumulation loop of `parse_log`: skip lines
containing "HEX DUMP", append `group(1).strip() + " "` for matching lines,
ignore the rest. -/
def hexAccumLine (acc : List Char) (line : List Char) : List Char :=
  if containsSeq "HEX DUMP".data line then acc
  else
    match hexLineMatch line with
    | some g => acc ++ pyStrip g ++ [' ']
    | none => acc

/-- The accumulated `hex_data` string over the data lines of a block. -/
def blockHexData (ls : List (List Char)) : List Char :=
  ls.foldl hexAccumLine []

/-- The hex tokens of a block: the accumulated `hex_data` of its lines
after the header, stripped and split on whitespace. -/
def blockTokens (block : List Char) : List (List Char) :=
  pySplitWs (pyStrip (blockHexData ((splitLines (pyStrip block)).drop 1)))

/-- Model of `datetime.strptime(ts, '%H:%M:%S.%f')` on a string already of shape
`\d{2}:\d{2}:\d{2}\.\d{3}`: the hour must be below 24 and minute/second
below 60, otherwise a `ValueError` is raised (`none`); on success the
time-of-day is returned as microseconds since midnight (the three-digit
fraction is right-padded to microseconds). -/
def pyStrptime (ts : List Char) : Option Nat :=
  match ts with
  | [h1, h2, ':', m1, m2, ':', s1, s2, '.', f1, f2, f3] =>
    let hh := (h1.toNat - 48) * 10 + (h2.toNat - 48)
    let mm := (m1.toNat - 48) * 10 + (m2.toNat - 48)
    let ss := (s1.toNat - 48) * 10 + (s2.toNat - 48)
    let ff := ((f1.toNat - 48) * 10 + (f2.toNat - 48)) * 10 + (f3.toNat - 48)
    if hh < 24 ∧ mm < 60 ∧ ss < 60 then
      some (((hh * 60 + mm) * 60 + ss) * 1000000 + ff * 1000)
    else none
  | _ => none

/-- One parsed log entry (the dict built by `parse_log`).  `timestamp_obj`
is the `datetime` value as microseconds since midnight. -/
structure LogEntry where
  timestamp : List Char
  timestamp_obj : Nat
  identifier : List Char
  event_type : List Char
  source_file : List Char
  line_number : List Char
  function : List Char
  hex_data : List Nat
  raw_block : List Char
  event_code : Option Nat := none
deriving DecidableEq, Repr, Inhabited

/-- Outcome of processing one block inside `parse_log`: silently skipped,
an uncaught exception (from `datetime.strptime`), or a produced entry. -/
inductive BlockResult where
  | skip
  | exn
  | entry (e : LogEntry)
deriving DecidableEq, Repr

/-- The body of the per-block loop of `LogParser.parse_log`. -/
def parseBlock (block : List Char) : BlockResult :=
  if (pyStrip block).isEmpty then .skip
  else
    let lines := splitLines (pyStrip block)
    if lines.length < 2 then .skip
    else
      match headerMatch (lines.headD []) with
      | none => .skip
      | some g =>
        let hex_values := (blockTokens block).map hexVal
        match pyStrptime g.timestamp with
        | none => .exn
        | some tsv =>
          .entry { timestamp := g.timestamp, timestamp_obj := tsv,
                   identifier := g.identifier, event_type := g.event_type,
                   source_file := g.source_file, line_number := g.line_number,
                   function := g.function, hex_data := hex_values,
                   raw_block := block,
                   event_code :=
                     if 2 < hex_values.length then some (hex_values.getD 2 0)
                     else none }

/-- The block loop of `parse_log`: entries accumulate in block order; an
uncaught exception aborts the whole call. -/
def parseBlocks : List (List Char) → Except Unit (List LogEntry)
  | [] => .ok []
  | b :: bs =>
    match parseBlock b with
    | .skip => parseBlocks bs
    | .exn => .error ()
    | .entry e => (parseBlocks bs).map (fun es => e :: es)

/-- Model of `LogParser.parse_log`: split the stripped text into blank-line-delimited
blocks and process each.  `.error ()` models an uncaught Python
exception escaping the call. -/
def parse_log (text : String) : Except Unit (List LogEntry) :=
  parseBlocks (pySplit (pyStrip text.data))

/-- A log text whose single dump line carries the 3-hex-digit token `ABC`
(flanked by a label and trailing text). -/
def c1Text : String :=
  "00:00:00.000|A B (C,1):D\n0h ABC Z"

/-- A log text whose single dump line carries the 2-hex-digit token `41`. -/
def c1OkText : String :=
  "00:00:00.000|A B (C,1):D\n0h 41 Z"

/-- The entries parsed from `c1OkText`. -/
def c1OkEntries : List LogEntry :=
  match parse_log c1OkText with
  | .ok es => es
  | .error _ => []

/-- A log text whose header line matches the header pattern but carries the
impossible time of day `99:99:99.999`. -/
def c2Text : String :=
  "99:99:99.999|A B (C,1):D\nx"

/-- A log text with one malformed block followed by one well-formed
block. -/
def c2MixedText : String :=
  "bad header line\nx\n\n00:00:00.000|A B (C,1):D\n0h 41 Z"

/-- Per-code summary produced by `analyze_events`.  `first_occurrence` and
`last_occurrence` are `none` when the group is empty (Python `None`). -/
structure AnalysisSummary where
  description : String
  count : Nat
  first_occurrence : Option Nat
  last_occurrence : Option Nat
deriving DecidableEq, Repr, Inhabited

/-- The result dict of `analyze_events`. -/
structure AnalysisResults where
  events_by_code : List (Nat × List LogEntry)
  event_summary : List (Nat × AnalysisSummary)
deriving DecidableEq, Repr

/-- The default `event_codes` dict of `analyze_events`. -/
def defaultEventCodes : List (Nat × String) :=
  [(0x24, "Результат просчета"), (0x23, "Счет (банкнота)"), (0x30, "Ошибка")]

/-- Python `min` over a list of comparable values (`none` on the empty
list, where Python would raise — `analyze_events` only calls it on
nonempty lists). -/
def listMin : List Nat → Option Nat
  | [] => none
  | x :: t => some (t.foldl Nat.min x)

/-- Python `max` over a list of comparable values. -/
def listMax : List Nat → Option Nat
  | [] => none
  | x :: t => some (t.foldl Nat.max x)

/-- Appending an entry to its code's group on the assoc-list model
of the dict. -/
def appendGroup (g : List (Nat × List LogEntry)) (c : Nat) (e : LogEntry) :
    List (Nat × List LogEntry) :=
  g.map (fun p => if p.1 = c then (p.1, p.2 ++ [e]) else p)

/-- The per-entry grouping step of `analyze_events`: an entry with an
`event_code` present in `event_codes` is appended to its code's group. -/
def analyzeStep (event_codes : List (Nat × String))
    (g : List (Nat × List LogEntry)) (e : LogEntry) :
    List (Nat × List LogEntry) :=
  match e.event_code with
  | some c => if (event_codes.lookup c).isSome then appendGroup g c e else g
  | none => g

/-- Model of `LogParser.analyze_events`: group entries by event code (codes taken
from the caller-supplied dict, modelled as an assoc list in insertion
order) and emit a per-code summary. -/
def analyze_events (parsed_logs : List LogEntry)
    (event_codes : List (Nat × String)) : AnalysisResults :=
  let groups0 := event_codes.map (fun p => (p.1, ([] : List LogEntry)))
  let groups := parsed_logs.foldl (analyzeStep event_codes) groups0
  let summary := event_codes.map (fun p =>
    let events := (groups.lookup p.1).getD []
    (p.1, { description := p.2, count := events.length,
            first_occurrence := listMin (events.map LogEntry.timestamp_obj),
            last_occurrence := listMax (events.map LogEntry.timestamp_obj)
            : AnalysisSummary }))
  { events_by_code := groups, event_summary := summary }

/-- C3: `parse_count_info` fails with the insufficient-data error exactly
when the byte sequence has fewer than 7 elements, and on success the
variant tag is the pure length dispatch `specCountFormat` of the payload
length (sequence length minus the 3 header bytes). -/
theorem C3_count_length_dispatch (bs : List Nat) :
    (parse_count_info bs = Decoded.error "Неполные данные счета" ↔ bs.length < 7) ∧
    ∀ r, parse_count_info bs = Decoded.ok r → r.format = specCountFormat (bs.length - 3) := by
  have hdl : (bs.drop 3).length = bs.length - 3 := List.length_drop 3 bs
  by_cases h1 : bs.length < 4
  · refine ⟨?_, ?_⟩
    · simp only [parse_count_info, if_pos h1]
      simpa using (show bs.length < 7 by omega)
    · intro r hr
      simp only [parse_count_info, if_pos h1] at hr
      exact Decoded.noConfusion hr
  · by_cases h2 : bs.length < 3 + 4
    · refine ⟨?_, ?_⟩
      · simp only [parse_count_info, if_neg h1, if_pos h2]
        simpa using (show bs.length < 7 by omega)
      · intro r hr
        simp only [parse_count_info, if_neg h1, if_pos h2] at hr
        exact Decoded.noConfusion hr
    · refine ⟨?_, ?_⟩
      · constructor
        · intro h
          exfalso
          revert h
          simp only [parse_count_info, if_neg h1, if_neg h2]
          split_ifs <;> simp
        · intro h
          exact absurd h (by omega)
      · intro r hr
        simp only [parse_count_info, if_neg h1, if_neg h2] at hr
        split_ifs at hr with h3 h4 h5 <;> cases hr <;>
          simp only [specCountFormat] <;> split_ifs with hA hB hC <;>
          first
            | rfl
            | (exfalso; omega)

/-- C3 witness: a 3-byte sequence is rejected as insufficient, and a
13-byte sequence (payload length 10) decodes with the `KD` tag. -/
theorem C3_count_length_dispatch_witness :
    parse_count_info (List.replicate 3 0) = Decoded.error "Неполные данные счета" ∧
    parse_count_info (List.replicate 13 0) = Decoded.ok kdSample ∧
    kdSample.format = "KD" := by
  refine ⟨(C3_count_length_dispatch (List.replicate 3 0)).1.mpr (by decide), rfl, ?_⟩
  have h := (C3_count_length_dispatch (List.replicate 13 0)).2 kdSample rfl
  simpa using h

/-- C10: whenever `parse_count_info` classifies a byte sequence as the `KD`
variant, the three cumulative totals are present in the result — the inner
length-at-least-10 availability check is implied by the `KD` branch
condition itself. -/
theorem C10_kd_totals_always_present (bs : List Nat) (r : CountInfo)
    (h : parse_count_info bs = Decoded.ok r) (hf : r.format = "KD") :
    r.insert_count_total.isSome ∧ r.deposit_count_total.isSome ∧
      r.reject_count_total.isSome := by
  simp only [parse_count_info] at h
  split_ifs at h with h1 h2 h3 h6 h4 h5 <;>
    first
      | exact Decoded.noConfusion h
      | (cases h; exfalso; omega)
      | (cases h; refine ⟨?_, ?_, ?_⟩ <;> simp [h3.1])
      | (cases h; simp at hf)

/-- C10 witness: the length-13 zero sequence is classified `KD` and its
result carries all three cumulative totals. -/
theorem C10_kd_totals_always_present_witness :
    kdSample.insert_count_total.isSome ∧ kdSample.deposit_count_total.isSome ∧
      kdSample.reject_count_total.isSome :=
  C10_kd_totals_always_present (List.replicate 13 0) kdSample rfl rfl

set_option maxRecDepth 4096 in
/-- C8: the worked `KD` example — header bytes are irrelevant, the payload
`[0x05, 0x08, 0x03, 0x02, 0x10, 0x00, 0x64, 0x00, 0x32, 0x00]` decodes to
the documented last-cycle counts and little-endian cumulative totals. -/
theorem C8_kd_worked_example (a b c : Nat) :
    parse_count_info ([a, b, c] ++ [5, 8, 3, 2, 16, 0, 100, 0, 50, 0]) =
      Decoded.ok
        { format := "KD", raw_data := [5, 8, 3, 2, 16, 0, 100, 0, 50, 0]
          insert_count_last := some 5
          deposit_count_last := some 8
          reject_count_last := some 3
          insert_try_count := some 2
          insert_count_total := some 16
          deposit_count_total := some 100
          reject_count_total := some 50 } :=
  rfl

/-- One element read off a list by index, as a one-element slice. -/
theorem singleton_getD (l : List Nat) (i : Nat) (h : i < l.length) :
    [l.getD i 0] = (l.drop i).take 1 := by
  rw [List.drop_eq_getElem_cons h, List.take_succ_cons, List.getD_eq_getElem l 0 h]
  rfl

/-- Two adjacent elements read off a list by index, as a two-element
slice. -/
theorem pair_getD (l : List Nat) (i j : Nat) (hj : j = i + 1) (h : j < l.length) :
    [l.getD i 0, l.getD j 0] = (l.drop i).take 2 := by
  subst hj
  have h2 : (l.drop (i + 1)).take 1 = [l.getD (i + 1) 0] :=
    (singleton_getD l (i + 1) h).symm
  have h1 : (l.drop i).take 2 = l.getD i 0 :: (l.drop (i + 1)).take 1 := by
    rw [List.drop_eq_getElem_cons (by omega : i < l.length), List.take_succ_cons,
      List.getD_eq_getElem l 0 (by omega : i < l.length)]
  rw [h1, h2]

/-- Two adjacent list slices merge into one. -/
theorem take_glue (l : List Nat) (i m n j k : Nat) (hj : j = i + m) (hk : k = m + n) :
    (l.drop i).take m ++ (l.drop j).take n = (l.drop i).take k := by
  subst hj hk
  rw [List.take_add, List.drop_drop]

/-- C7: `parse_banknote_info` fails with the insufficient-data error exactly
when the byte sequence has fewer than 61 elements; on success the 58
decoded sub-fields, concatenated in layout order, are exactly the first 58
payload bytes — consecutive offsets 0 through 57 with no gaps or overlaps,
58 bytes consumed in total. -/
theorem C7_banknote_layout (bs : List Nat) :
    (parse_banknote_info bs = Decoded.error "Неполные данные о банкноте" ↔ bs.length < 61) ∧
    ∀ r, parse_banknote_info bs = Decoded.ok r →
      bnFieldsConcat r = (bs.drop 3).take 58 ∧ ((bs.drop 3).take 58).length = 58 := by
  by_cases h1 : bs.length < 58
  · constructor
    · simp only [parse_banknote_info, if_pos h1]
      simpa using (show bs.length < 61 by omega)
    · intro r hr
      simp only [parse_banknote_info, if_pos h1] at hr
      exact Decoded.noConfusion hr
  · by_cases h2 : bs.length < 3 + 58
    · constructor
      · simp only [parse_banknote_info, if_neg h1, if_pos h2]
        simpa using (show bs.length < 61 by omega)
      · intro r hr
        simp only [parse_banknote_info, if_neg h1, if_pos h2] at hr
        exact Decoded.noConfusion hr
    · have hd : 58 ≤ (bs.drop 3).length := by
        rw [List.length_drop]; omega
      constructor
      · constructor
        · intro h
          exfalso
          revert h
          simp only [parse_banknote_info, if_neg h1, if_neg h2]
          simp
        · intro h
          exact absurd h (by omega)
      · intro r hr
        simp only [parse_banknote_info, if_neg h1, if_neg h2] at hr
        cases hr
        refine ⟨?_, by rw [List.length_take]; omega⟩
        simp only [bnFieldsConcat]
        rw [singleton_getD (bs.drop 3) 0 (by omega),
            pair_getD (bs.drop 3) 11 12 rfl (by omega),
            singleton_getD (bs.drop 3) 16 (by omega),
            pair_getD (bs.drop 3) 53 54 rfl (by omega),
            singleton_getD (bs.drop 3) 57 (by omega)]
        rw [take_glue (bs.drop 3) 0 1 4 1 5 (by norm_num) (by norm_num),
            take_glue (bs.drop 3) 0 5 2 5 7 (by norm_num) (by norm_num),
            take_glue (bs.drop 3) 0 7 4 7 11 (by norm_num) (by norm_num),
            take_glue (bs.drop 3) 0 11 2 11 13 (by norm_num) (by norm_num),
            take_glue (bs.drop 3) 0 13 3 13 16 (by norm_num) (by norm_num),
            take_glue (bs.drop 3) 0 16 1 16 17 (by norm_num) (by norm_num),
            take_glue (bs.drop 3) 0 17 32 17 49 (by norm_num) (by norm_num),
            take_glue (bs.drop 3) 0 49 4 49 53 (by norm_num) (by norm_num),
            take_glue (bs.drop 3) 0 53 2 53 55 (by norm_num) (by norm_num),
            take_glue (bs.drop 3) 0 55 2 55 57 (by norm_num) (by norm_num),
            take_glue (bs.drop 3) 0 57 1 57 58 (by norm_num) (by norm_num),
            List.drop_zero]

/-- C7 witness: a 60-byte sequence is rejected as insufficient, and on the
61-byte zero sequence the decoded sub-fields concatenate to the 58-byte
payload. -/
theorem C7_banknote_layout_witness :
    parse_banknote_info (List.replicate 61 0) = Decoded.ok bnSample ∧
    bnFieldsConcat bnSample = ((List.replicate 61 (0 : Nat)).drop 3).take 58 ∧
    parse_banknote_info (List.replicate 60 0) = Decoded.error "Неполные данные о банкноте" := by
  refine ⟨rfl, ?_, (C7_banknote_layout (List.replicate 60 0)).1.mpr (by decide)⟩
  exact ((C7_banknote_layout (List.replicate 61 0)).2 bnSample rfl).1

/-- The flag loop unrolled: `errGo` walks the table zipped against the
payload, producing the per-flag records, the active messages in table
order, and the any-active flag. -/
theorem errGo_eq (t : List FieldInfo) (data : List Nat) :
    errGo t data =
      ((t.zip data).map (fun p => (p.1.name, mkErrorField p.1 p.2)),
       (t.zip data).filterMap (fun p => flagMessage p.1 p.2),
       !((t.zip data).filterMap (fun p => flagMessage p.1 p.2)).isEmpty) := by
  induction t generalizing data with
  | nil => simp [errGo]
  | cons fi rest ih =>
    cases data with
    | nil => simp [errGo]
    | cons v ds =>
      simp only [errGo, ih ds, List.zip_cons_cons, List.map_cons, List.filterMap_cons]
      cases hm : flagMessage fi v with
      | none => simp [hm]
      | some m => simp [hm]

/-- Evaluation of `parse_error_info` on a sequence of at least 4 bytes: the result,
expressed through the zipped table walk. -/
theorem parse_error_info_ok (bs : List Nat) (h : 4 ≤ bs.length) :
    parse_error_info bs = Decoded.ok
      { raw_data := bs.drop 3,
        errors_detected :=
          !(((error_fields.zip (bs.drop 3)).filterMap
              (fun p => flagMessage p.1 p.2)).isEmpty),
        fields := (error_fields.zip (bs.drop 3)).map
          (fun p => (p.1.name, mkErrorField p.1 p.2)),
        active_errors := (error_fields.zip (bs.drop 3)).filterMap
          (fun p => flagMessage p.1 p.2),
        active_error_count := ((error_fields.zip (bs.drop 3)).filterMap
          (fun p => flagMessage p.1 p.2)).length } := by
  simp only [parse_error_info, if_neg (show ¬bs.length < 4 by omega), errGo_eq]

/-- Failure of `parse_error_info` happens exactly on sequences shorter than 4 bytes. -/
theorem parse_error_info_err (bs : List Nat) :
    parse_error_info bs = Decoded.error "Неполные данные об ошибках" ↔ bs.length < 4 := by
  by_cases h : bs.length < 4
  · simp [parse_error_info, h]
  · simp [parse_error_info, h]

/-- First components of a zip, mapped. -/
theorem zip_map_fst {α β γ : Type} (f : α → γ) :
    ∀ (t : List α) (l : List β),
      (t.zip l).map (fun p => f p.1) = (t.take l.length).map f
  | [], _ => by simp
  | _ :: _, [] => by simp
  | a :: t, b :: l => by
    simp only [List.zip_cons_cons, List.map_cons, List.length_cons,
      List.take_succ_cons]
    rw [zip_map_fst f t l]

/-- Second components of a zip, mapped. -/
theorem zip_map_snd {α β γ : Type} (g : β → γ) :
    ∀ (t : List α) (l : List β),
      (t.zip l).map (fun p => g p.2) = (l.take t.length).map g
  | [], _ => by simp
  | _ :: _, [] => by simp
  | a :: t, b :: l => by
    simp only [List.zip_cons_cons, List.map_cons, List.length_cons,
      List.take_succ_cons]
    rw [zip_map_snd g t l]

/-- Taking `min L 60` entries of the 60-entry table is taking `L`. -/
theorem take_table_min (L : Nat) :
    error_fields.take (min L 60) = error_fields.take L := by
  have hlen : error_fields.length = 60 := rfl
  rcases le_or_lt L 60 with h | h
  · rw [min_eq_left h]
  · rw [min_eq_right (by omega), List.take_of_length_le (by omega),
      List.take_of_length_le (by omega)]

/-- C5: on any byte sequence of at least 4 elements, `parse_error_info`
succeeds (a short payload is partial data, never an error) and emits one
flag record per index below `min (payload length) 60`, in table order,
each carrying exactly the payload byte at its index; indices at or beyond
the payload length are absent. -/
theorem C5_error_records_per_index (bs : List Nat) (h : 4 ≤ bs.length) :
    ∃ r, parse_error_info bs = Decoded.ok r ∧
      r.fields.map Prod.fst =
        (error_fields.take (min (bs.length - 3) 60)).map FieldInfo.name ∧
      r.fields.map (fun q => q.2.value) = (bs.drop 3).take 60 := by
  refine ⟨_, parse_error_info_ok bs h, ?_, ?_⟩
  · rw [List.map_map]
    have h1 : ((error_fields.zip (bs.drop 3)).map
        (fun p => FieldInfo.name p.1)) =
        (error_fields.take (bs.drop 3).length).map FieldInfo.name :=
      zip_map_fst FieldInfo.name error_fields (bs.drop 3)
    have h2 : (bs.drop 3).length = bs.length - 3 := List.length_drop 3 bs
    rw [take_table_min]
    rw [← h2]
    exact h1
  · rw [List.map_map]
    have h1 : ((error_fields.zip (bs.drop 3)).map (fun p => p.2)) =
        ((bs.drop 3).take error_fields.length).map (fun v => v) :=
      zip_map_snd (fun v => v) error_fields (bs.drop 3)
    have h2 : ((bs.drop 3).take (60 : Nat)).map (fun v : Nat => v) =
        (bs.drop 3).take 60 := List.map_id _
    exact h1.trans h2

/-- C5 witness: the sequence `[0,0,0,1]` (payload `[1]`) yields exactly one
flag record, for table index 0, carrying value 1. -/
theorem C5_error_records_per_index_witness :
    ∃ r, parse_error_info [0, 0, 0, 1] = Decoded.ok r ∧
      r.fields.map Prod.fst = ["reverse_motor"] ∧
      r.fields.map (fun q => q.2.value) = [1] := by
  obtain ⟨r, hr, h1, h2⟩ := C5_error_records_per_index [0, 0, 0, 1] (by decide)
  exact ⟨r, hr, by rw [h1]; rfl, by rw [h2]; rfl⟩

/-- A flag whose table entry has an empty generic meaning text and is not
the special index-32 entry never produces an active-error message. -/
theorem flagMessage_none (fi : FieldInfo) (hn : fi.name ≠ "banknote_trans_fail")
    (he : fi.error_desc = "") (v : Nat) : flagMessage fi v = none := by
  simp only [flagMessage]
  rw [if_neg (fun hc => hn hc.1), if_neg (fun hc => hc.2 he)]

/-- C6: every successful `parse_error_info` result satisfies the derived
invariants — `active_error_count` is the length of `active_errors`,
`errors_detected` holds exactly when that count is nonzero, and
`active_errors` is the in-order scan of the emitted flag records (table
order preserved). -/
theorem C6_active_error_invariants (bs : List Nat) (r : ErrorInfo)
    (h : parse_error_info bs = Decoded.ok r) :
    r.active_error_count = r.active_errors.length ∧
    (r.errors_detected = true ↔ r.active_error_count ≠ 0) ∧
    r.active_errors = r.fields.filterMap
      (fun q => flagMessage ⟨q.1, q.2.description, q.2.error_desc, q.2.scope⟩
        q.2.value) := by
  have h4 : 4 ≤ bs.length := by
    by_contra hlt
    rw [(parse_error_info_err bs).mpr (by omega)] at h
    exact Decoded.noConfusion h
  rw [parse_error_info_ok bs h4] at h
  cases h
  refine ⟨rfl, ?_, ?_⟩
  · show (!(((error_fields.zip (bs.drop 3)).filterMap
        (fun p => flagMessage p.1 p.2)).isEmpty)) = true ↔
      ((error_fields.zip (bs.drop 3)).filterMap
        (fun p => flagMessage p.1 p.2)).length ≠ 0
    generalize ((error_fields.zip (bs.drop 3)).filterMap
      (fun p => flagMessage p.1 p.2)) = E
    cases E <;> simp
  · show ((error_fields.zip (bs.drop 3)).filterMap
        (fun p => flagMessage p.1 p.2)) =
      ((error_fields.zip (bs.drop 3)).map
        (fun p => (p.1.name, mkErrorField p.1 p.2))).filterMap
        (fun q => flagMessage ⟨q.1, q.2.description, q.2.error_desc, q.2.scope⟩
          q.2.value)
    rw [List.filterMap_map]
    rfl

/-- C6 witness: the invariants hold on the concrete decode of `[0,0,0,1]`
(one active flag). -/
theorem C6_active_error_invariants_witness :
    errSample.active_error_count = errSample.active_errors.length ∧
    (errSample.errors_detected = true ↔ errSample.active_error_count ≠ 0) ∧
    errSample.active_errors = errSample.fields.filterMap
      (fun q => flagMessage ⟨q.1, q.2.description, q.2.error_desc, q.2.scope⟩
        q.2.value) :=
  C6_active_error_invariants [0, 0, 0, 1] errSample rfl

/-- C4: the activity rules of `parse_error_info` — `active_errors` is the
table walk through `flagMessage`; the index-32 entry (`banknote_trans_fail`)
is active for every nonzero value, with its specific text from the 14-entry
sub-code table (value 3 giving the banknote-tear text, unknown values the
default unknown-error-code text); every other entry is active exactly when
its value is 1 and its generic meaning text is nonempty, so the reserved
entries 52–59 are never active. -/
theorem C4_flag32_special (bs : List Nat) (r : ErrorInfo)
    (h : parse_error_info bs = Decoded.ok r) :
    r.active_errors = (error_fields.zip (bs.drop 3)).filterMap
      (fun p => flagMessage p.1 p.2) ∧
    btfFieldInfo.name = "banknote_trans_fail" ∧
    (∀ (fi : FieldInfo) (v : Nat), fi.name = "banknote_trans_fail" →
      ((flagMessage fi v).isSome = true ↔ v ≠ 0) ∧
      (v ≠ 0 → flagMessage fi v = some (fi.description ++ ": " ++ btfLookup v))) ∧
    btfLookup 3 = "Ошибка разрыва банкноты" ∧
    (∀ v, banknote_trans_fail_desc.lookup v = none →
      btfLookup v = "Неизвестный код ошибки: " ++ toString v) ∧
    banknote_trans_fail_desc.map Prod.fst =
      [0, 1, 2, 3, 4, 5, 6, 7, 8, 16, 17, 18, 19, 20, 21] ∧
    (∀ (fi : FieldInfo) (v : Nat), fi.name ≠ "banknote_trans_fail" →
      ((flagMessage fi v).isSome = true ↔ v = 1 ∧ fi.error_desc ≠ "")) ∧
    (∀ i, 52 ≤ i → i ≤ 59 →
      (error_fields.getD i default).error_desc = "" ∧
      (error_fields.getD i default).name ≠ "banknote_trans_fail" ∧
      ∀ v, flagMessage (error_fields.getD i default) v = none) := by
  refine ⟨?_, rfl, ?_, rfl, ?_, rfl, ?_, ?_⟩
  · have h4 : 4 ≤ bs.length := by
      by_contra hlt
      rw [(parse_error_info_err bs).mpr (by omega)] at h
      exact Decoded.noConfusion h
    rw [parse_error_info_ok bs h4] at h
    cases h
    rfl
  · intro fi v hn
    constructor
    · by_cases hv : 0 < v
      · simp only [flagMessage, if_pos (⟨hn, hv⟩ : fi.name = "banknote_trans_fail" ∧ 0 < v)]
        simpa using (show v ≠ 0 by omega)
      · simp only [flagMessage,
          if_neg (fun hc : fi.name = "banknote_trans_fail" ∧ 0 < v => hv hc.2),
          if_neg (fun hc : v = 1 ∧ fi.error_desc ≠ "" => hv (by omega))]
        simpa using (show v = 0 by omega)
    · intro hv
      simp only [flagMessage,
        if_pos (⟨hn, by omega⟩ : fi.name = "banknote_trans_fail" ∧ 0 < v)]
  · intro v hv
    simp [btfLookup, hv]
  · intro fi v hn
    by_cases h2 : v = 1 ∧ fi.error_desc ≠ ""
    · simp only [flagMessage, if_neg (fun hc : fi.name = "banknote_trans_fail" ∧ 0 < v => hn hc.1),
        if_pos h2]
      simpa using h2
    · simp only [flagMessage, if_neg (fun hc : fi.name = "banknote_trans_fail" ∧ 0 < v => hn hc.1),
        if_neg h2]
      simpa using h2
  · intro i h52 h59
    interval_cases i <;>
      exact ⟨rfl, by decide, flagMessage_none _ (by decide) rfl⟩

/-- C4 witness: on the 36-byte sequence whose payload byte 32 is 3, the
single active error carries the banknote-tear sub-code text. -/
theorem C4_flag32_special_witness :
    parse_error_info c4bs = Decoded.ok c4Sample ∧
    c4Sample.active_errors =
      ["Сбой транспортировки банкноты: Ошибка разрыва банкноты"] := by
  refine ⟨rfl, ?_⟩
  have h := (C4_flag32_special c4bs c4Sample rfl).1
  rw [h]
  rfl

set_option maxRecDepth 8192 in
/-- C2: evidence for the claim's failure on the code — a block whose header
line matches the header pattern but carries the impossible time of day
`99:99:99.999` makes `datetime.strptime` raise an uncaught `ValueError`, so
`parse_log` does not return a list for every input text.  The
discard-and-continue behavior for blocks whose first line does not match
the pattern does hold (second conjunct). -/
theorem C2_parse_crashes_on_bad_time :
    parse_log c2Text = Except.error () ∧
    (parse_log c2MixedText).map (fun es => es.length) = Except.ok 1 := by
  exact ⟨rfl, rfl⟩

/-- A key of a pair present in an assoc list is found by `lookup`. -/
theorem lookup_isSome_of_mem (codes : List (Nat × String)) (c : Nat) (d : String)
    (h : (c, d) ∈ codes) : (codes.lookup c).isSome = true := by
  induction codes with
  | nil => simp at h
  | cons a t ih =>
    rcases List.mem_cons.mp h with h1 | h1
    · rw [← h1]
      simp [List.lookup]
    · by_cases hca : c = a.1
      · simp [List.lookup, hca]
      · simp only [List.lookup,
          show (c == a.1) = false from beq_eq_false_iff_ne.mpr hca]
        exact ih h1

/-- Lookup after `appendGroup`: only the groups keyed by its code change. -/
theorem lookup_appendGroup (g : List (Nat × List LogEntry)) (c c' : Nat)
    (e : LogEntry) :
    (appendGroup g c e).lookup c' =
      if c' = c then (g.lookup c').map (fun l => l ++ [e]) else g.lookup c' := by
  induction g with
  | nil => simp [appendGroup]
  | cons a t ih =>
    by_cases hac : a.1 = c
    · have hhead : appendGroup (a :: t) c e = (a.1, a.2 ++ [e]) :: appendGroup t c e := by
        simp [appendGroup, hac]
      rw [hhead]
      by_cases hca : c' = a.1
      · rw [if_pos (hca.trans hac)]
        simp [List.lookup, show (c' == a.1) = true from beq_iff_eq.mpr hca]
      · have hcc : c' ≠ c := fun hcc => hca (hcc.trans hac.symm)
        rw [if_neg hcc]
        simp only [List.lookup,
          show (c' == a.1) = false from beq_eq_false_iff_ne.mpr hca]
        rw [ih, if_neg hcc]
    · have hhead : appendGroup (a :: t) c e = a :: appendGroup t c e := by
        simp [appendGroup, hac]
      rw [hhead]
      by_cases hca : c' = a.1
      · have hcc : c' ≠ c := fun hcc => hac ((hca.symm.trans hcc))
        rw [if_neg hcc]
        simp [List.lookup, show (c' == a.1) = true from beq_iff_eq.mpr hca]
      · simp only [List.lookup,
          show (c' == a.1) = false from beq_eq_false_iff_ne.mpr hca]
        exact ih

/-- In the freshly initialized grouping dict every known code maps to the
empty group. -/
theorem lookup_groups0 (codes : List (Nat × String)) (c : Nat)
    (h : (codes.lookup c).isSome = true) :
    ((codes.map (fun p => (p.1, ([] : List LogEntry)))).lookup c) = some [] := by
  induction codes with
  | nil => simp [List.lookup] at h
  | cons a t ih =>
    simp only [List.map_cons, List.lookup] at h ⊢
    by_cases hca : c = a.1
    · simp [show (c == a.1) = true from beq_iff_eq.mpr hca]
    · simp only [show (c == a.1) = false from beq_eq_false_iff_ne.mpr hca] at h ⊢
      exact ih h

/-- Folding the grouping step over the entries appends to a known code's
group exactly the entries carrying that code, in order. -/
theorem lookup_fold (codes : List (Nat × String)) (c : Nat)
    (hc : (codes.lookup c).isSome = true) :
    ∀ (entries : List LogEntry) (g : List (Nat × List LogEntry)) (l : List LogEntry),
      g.lookup c = some l →
      ((entries.foldl (analyzeStep codes) g).lookup c) =
        some (l ++ entries.filter (fun e => e.event_code == some c)) := by
  intro entries
  induction entries with
  | nil => intro g l hg; simpa using hg
  | cons e rest ih =>
    intro g l hg
    simp only [List.foldl_cons, List.filter_cons]
    cases hec : e.event_code with
    | none =>
      have hstep : analyzeStep codes g e = g := by simp [analyzeStep, hec]
      rw [hstep]
      simpa using ih g l hg
    | some c' =>
      by_cases hin : (codes.lookup c').isSome = true
      · have hstep : analyzeStep codes g e = appendGroup g c' e := by
          simp [analyzeStep, hec, hin]
        rw [hstep]
        by_cases hcc : c' = c
        · subst hcc
          have hg' : (appendGroup g c' e).lookup c' = some (l ++ [e]) := by
            rw [lookup_appendGroup, if_pos rfl, hg]
            rfl
          rw [ih _ _ hg']
          simp
        · have hg' : (appendGroup g c' e).lookup c = some l := by
            rw [lookup_appendGroup, if_neg (fun hh => hcc hh.symm), hg]
          rw [ih _ _ hg']
          have hbeq : (some c' == some c) = false := by simp [hcc]
          simp [hbeq]
      · have hstep : analyzeStep codes g e = g := by
          simp only [analyzeStep, hec]
          rw [if_neg (by simpa using hin)]
        rw [hstep]
        have hcc : c' ≠ c := fun hcc => hin (hcc ▸ hc)
        have hbeq : (some c' == some c) = false := by simp [hcc]
        rw [hbeq]
        simpa using ih g l hg

/-- Looking up a key with nodup keys in a per-entry mapped assoc list finds
the image of that key's unique pair. -/
theorem lookup_map_pairs {β : Type} (codes : List (Nat × String))
    (f : Nat × String → β) (hnd : (codes.map Prod.fst).Nodup) (c : Nat)
    (d : String) (hm : (c, d) ∈ codes) :
    ((codes.map (fun p => (p.1, f p))).lookup c) = some (f (c, d)) := by
  induction codes with
  | nil => simp at hm
  | cons a t ih =>
    simp only [List.map_cons, List.lookup]
    rcases List.mem_cons.mp hm with h1 | h1
    · subst h1
      simp
    · rw [List.map_cons, List.nodup_cons] at hnd
      have hca : c ≠ a.1 := by
        intro hca
        exact hnd.1 (hca ▸ List.mem_map.mpr ⟨(c, d), h1, rfl⟩)
      simp only [show (c == a.1) = false from beq_eq_false_iff_ne.mpr hca]
      exact ih hnd.2 h1

/-- A fold of `Nat.min` is bounded above by its seed and every element. -/
theorem foldl_min_le : ∀ (t : List Nat) (a : Nat),
    t.foldl Nat.min a ≤ a ∧ ∀ x ∈ t, t.foldl Nat.min a ≤ x := by
  intro t
  induction t with
  | nil => intro a; exact ⟨Nat.le_refl a, by simp⟩
  | cons b t ih =>
    intro a
    have h := ih (Nat.min a b)
    simp only [List.foldl_cons]
    refine ⟨Nat.le_trans h.1 (Nat.min_le_left a b), ?_⟩
    intro x hx
    rcases List.mem_cons.mp hx with h1 | h1
    · rw [h1]
      exact Nat.le_trans h.1 (Nat.min_le_right a b)
    · exact h.2 x h1

/-- A fold of `Nat.max` is bounded below by its seed and every element. -/
theorem foldl_max_ge : ∀ (t : List Nat) (a : Nat),
    a ≤ t.foldl Nat.max a ∧ ∀ x ∈ t, x ≤ t.foldl Nat.max a := by
  intro t
  induction t with
  | nil => intro a; exact ⟨Nat.le_refl a, by simp⟩
  | cons b t ih =>
    intro a
    have h := ih (Nat.max a b)
    simp only [List.foldl_cons]
    refine ⟨Nat.le_trans (Nat.le_max_left a b) h.1, ?_⟩
    intro x hx
    rcases List.mem_cons.mp hx with h1 | h1
    · rw [h1]
      exact Nat.le_trans (Nat.le_max_right a b) h.1
    · exact h.2 x h1

/-- The result of `listMin` bounds every element from below. -/
theorem listMin_le (l : List Nat) (m : Nat) (h : listMin l = some m) :
    ∀ x ∈ l, m ≤ x := by
  cases l with
  | nil => exact absurd h (by simp [listMin])
  | cons a t =>
    simp only [listMin, Option.some.injEq] at h
    subst h
    intro x hx
    rcases List.mem_cons.mp hx with h1 | h1
    · exact h1 ▸ (foldl_min_le t a).1
    · exact (foldl_min_le t a).2 x h1

/-- The result of `listMax` bounds every element from above. -/
theorem listMax_ge (l : List Nat) (m : Nat) (h : listMax l = some m) :
    ∀ x ∈ l, x ≤ m := by
  cases l with
  | nil => exact absurd h (by simp [listMax])
  | cons a t =>
    simp only [listMax, Option.some.injEq] at h
    subst h
    intro x hx
    rcases List.mem_cons.mp hx with h1 | h1
    · exact h1 ▸ (foldl_max_ge t a).1
    · exact (foldl_max_ge t a).2 x h1

/-- C9: for every entry list and every code present in the known-codes dict
— including codes matched by zero entries — `analyze_events` returns a
summary record whose count is the size of that code's group (the entries
carrying the code, in order) and whose first/last occurrence are the
min/max `timestamp_obj` over that group, both absent when the group is
empty; an empty group yields this record, not an error. -/
theorem C9_analyze_summary (entries : List LogEntry) (codes : List (Nat × String))
    (hnd : (codes.map Prod.fst).Nodup) (c : Nat) (d : String) (hc : (c, d) ∈ codes) :
    ∃ s, ((analyze_events entries codes).event_summary).lookup c = some s ∧
      s.description = d ∧
      s.count = (entries.filter (fun e => e.event_code == some c)).length ∧
      s.first_occurrence =
        listMin ((entries.filter (fun e => e.event_code == some c)).map
          LogEntry.timestamp_obj) ∧
      s.last_occurrence =
        listMax ((entries.filter (fun e => e.event_code == some c)).map
          LogEntry.timestamp_obj) ∧
      ((entries.filter (fun e => e.event_code == some c)) = [] →
        s.first_occurrence = none ∧ s.last_occurrence = none) ∧
      (∀ m, s.first_occurrence = some m →
        ∀ e ∈ entries.filter (fun e => e.event_code == some c),
          m ≤ e.timestamp_obj) ∧
      (∀ m, s.last_occurrence = some m →
        ∀ e ∈ entries.filter (fun e => e.event_code == some c),
          e.timestamp_obj ≤ m) := by
  have hlk : (codes.lookup c).isSome = true := lookup_isSome_of_mem codes c d hc
  have hgrp :
      ((entries.foldl (analyzeStep codes)
        (codes.map (fun p => (p.1, ([] : List LogEntry))))).lookup c) =
        some (entries.filter (fun e => e.event_code == some c)) := by
    have h0 := lookup_groups0 codes c hlk
    simpa using lookup_fold codes c hlk entries _ [] h0
  refine ⟨_, lookup_map_pairs codes _ hnd c d hc, rfl, ?_, ?_, ?_, ?_, ?_, ?_⟩
  · show (((entries.foldl (analyzeStep codes)
        (codes.map (fun p => (p.1, ([] : List LogEntry))))).lookup c).getD []).length = _
    rw [hgrp]; rfl
  · show listMin ((((entries.foldl (analyzeStep codes)
        (codes.map (fun p => (p.1, ([] : List LogEntry))))).lookup c).getD []).map
        LogEntry.timestamp_obj) = _
    rw [hgrp]; rfl
  · show listMax ((((entries.foldl (analyzeStep codes)
        (codes.map (fun p => (p.1, ([] : List LogEntry))))).lookup c).getD []).map
        LogEntry.timestamp_obj) = _
    rw [hgrp]; rfl
  · intro hemp
    constructor
    · show listMin ((((entries.foldl (analyzeStep codes)
          (codes.map (fun p => (p.1, ([] : List LogEntry))))).lookup c).getD []).map
          LogEntry.timestamp_obj) = none
      rw [hgrp, hemp]
      rfl
    · show listMax ((((entries.foldl (analyzeStep codes)
          (codes.map (fun p => (p.1, ([] : List LogEntry))))).lookup c).getD []).map
          LogEntry.timestamp_obj) = none
      rw [hgrp, hemp]
      rfl
  · intro m hm e he
    have hm' : listMin ((entries.filter (fun e => e.event_code == some c)).map
        LogEntry.timestamp_obj) = some m := by
      rw [← hm]
      show _ = listMin ((((entries.foldl (analyzeStep codes)
        (codes.map (fun p => (p.1, ([] : List LogEntry))))).lookup c).getD []).map
        LogEntry.timestamp_obj)
      rw [hgrp]
      rfl
    exact listMin_le _ m hm' e.timestamp_obj
      (List.mem_map.mpr ⟨e, he, rfl⟩)
  · intro m hm e he
    have hm' : listMax ((entries.filter (fun e => e.event_code == some c)).map
        LogEntry.timestamp_obj) = some m := by
      rw [← hm]
      show _ = listMax ((((entries.foldl (analyzeStep codes)
        (codes.map (fun p => (p.1, ([] : List LogEntry))))).lookup c).getD []).map
        LogEntry.timestamp_obj)
      rw [hgrp]
      rfl
    exact listMax_ge _ m hm' e.timestamp_obj
      (List.mem_map.mpr ⟨e, he, rfl⟩)

/-- C9 witness: over an empty entry list, the default code 0x24 still gets
a summary record with count 0 and absent first/last occurrence. -/
theorem C9_analyze_summary_witness :
    ∃ s, ((analyze_events [] defaultEventCodes).event_summary).lookup 0x24 = some s ∧
      s.count = 0 ∧ s.first_occurrence = none ∧ s.last_occurrence = none := by
  obtain ⟨s, hs, _, hcnt, _, _, hemp, _, _⟩ :=
    C9_analyze_summary [] defaultEventCodes (by decide) 0x24 "Результат просчета"
      (by decide)
  exact ⟨s, hs, by simpa using hcnt, (hemp rfl).1, (hemp rfl).2⟩

/-- Characters of a prefix no longer than the matching `takeWhile` prefix
satisfy the class predicate. -/
theorem mem_take_of_le_takeWhile (p : Char → Bool) :
    ∀ (s : List Char) (k : Nat) (c : Char),
      k ≤ (s.takeWhile p).length → c ∈ s.take k → p c = true
  | [], _, _, _, hc => by simp at hc
  | a :: t, k, c, hk, hc => by
    cases hpa : p a with
    | false =>
      simp [List.takeWhile_cons, hpa, Nat.le_zero] at hk
      subst hk
      simp at hc
    | true =>
      cases k with
      | zero => simp at hc
      | succ k2 =>
        rw [List.take_succ_cons] at hc
        rcases List.mem_cons.mp hc with h1 | h1
        · rw [h1]; exact hpa
        · refine mem_take_of_le_takeWhile p t k2 c ?_ h1
          simp only [List.takeWhile_cons, hpa, if_true, List.length_cons] at hk
          omega

/-- Every capture returned by `matchSeq` consists of characters of its
item's class and is nonempty in length bound terms (each character
satisfies the predicate of the corresponding capturing item). -/
theorem matchSeq_caps :
    ∀ (items : List RItem) (s : List Char) (caps : List (List Char)),
      matchSeq items s = some caps →
      List.Forall₂ (fun (p : Char → Bool) (cap : List Char) => ∀ ch ∈ cap, p ch = true)
        (capPreds items) caps
  | [], s, caps, h => by
    simp only [matchSeq, Option.some.injEq] at h
    subst h
    exact List.Forall₂.nil
  | .lit c :: rest, s, caps, h => by
    cases s with
    | nil => exact absurd h (by simp [matchSeq])
    | cons x t =>
      simp only [matchSeq] at h
      by_cases hx : x = c
      · rw [if_pos hx] at h
        simpa [capPreds] using matchSeq_caps rest t caps h
      · rw [if_neg hx] at h
        exact Option.noConfusion h
  | .plus p lz cap :: rest, s, caps, h => by
    simp only [matchSeq] at h
    obtain ⟨k, hkmem, hfk⟩ := List.exists_of_findSome?_eq_some h
    obtain ⟨cs, hcs, hmap⟩ := Option.map_eq_some'.mp hfk
    have hk2 : 1 ≤ k ∧ k ≤ (s.takeWhile p).length := by
      have hkr : k ∈ List.range' 1 ((s.takeWhile p).length) := by
        cases lz with
        | false =>
          rw [show tryLens false ((s.takeWhile p).length) =
            (List.range' 1 ((s.takeWhile p).length)).reverse from rfl] at hkmem
          exact List.mem_reverse.mp hkmem
        | true => exact hkmem
      have := List.mem_range'_1.mp hkr
      omega
    have ihr := matchSeq_caps rest (s.drop k) cs hcs
    cases cap with
    | false =>
      simp only [if_neg (by simp : ¬((false : Bool) = true))] at hmap
      subst hmap
      simpa [capPreds] using ihr
    | true =>
      simp only [if_pos rfl] at hmap
      subst hmap
      rw [show capPreds (RItem.plus p lz true :: rest) = p :: capPreds rest from rfl]
      exact List.Forall₂.cons
        (fun ch hch => mem_take_of_le_takeWhile p s k ch hk2.2 hch) ihr

/-- The group captured from a hex-dump line consists of hex digits and
whitespace only. -/
theorem hexLineMatch_chars (line g : List Char) (h : hexLineMatch line = some g) :
    ∀ ch ∈ g, (isUpHexChar ch || pyIsSpace ch) = true := by
  unfold hexLineMatch at h
  cases hm : matchSeq hexItems line with
  | none => rw [hm] at h; exact Option.noConfusion h
  | some caps =>
    rw [hm] at h
    have hf := matchSeq_caps hexItems line caps hm
    cases caps with
    | nil => simp at h
    | cons a l =>
      cases l with
      | nil =>
        have hg : a = g := by simpa using h
        subst hg
        rw [show capPreds hexItems =
          [fun c => isUpHexChar c || pyIsSpace c] from rfl] at hf
        cases hf with
        | cons hhead _ => exact hhead
      | cons b l2 => simp at h

/-- Stripping keeps only characters of the original string. -/
theorem mem_of_mem_pyStrip (s : List Char) (c : Char) (h : c ∈ pyStrip s) : c ∈ s := by
  unfold pyStrip at h
  have h1 := List.mem_reverse.mp h
  have h2 := (List.dropWhile_sublist _).mem h1
  have h3 := List.mem_reverse.mp h2
  exact (List.dropWhile_sublist _).mem h3

/-- The accumulated `hex_data` string contains hex digits and whitespace
only. -/
theorem hexAccum_chars :
    ∀ (ls : List (List Char)) (acc : List Char),
      (∀ ch ∈ acc, (isUpHexChar ch || pyIsSpace ch) = true) →
      ∀ ch ∈ ls.foldl hexAccumLine acc, (isUpHexChar ch || pyIsSpace ch) = true
  | [], acc, hacc => by simpa using hacc
  | line :: ls, acc, hacc => by
    simp only [List.foldl_cons]
    refine hexAccum_chars ls (hexAccumLine acc line) ?_
    intro ch hch
    unfold hexAccumLine at hch
    by_cases hmark : containsSeq "HEX DUMP".data line = true
    · rw [if_pos hmark] at hch
      exact hacc ch hch
    · rw [if_neg hmark] at hch
      cases hg : hexLineMatch line with
      | none => rw [hg] at hch; exact hacc ch hch
      | some g =>
        rw [hg] at hch
        rcases List.mem_append.mp hch with h1 | h1
        · rcases List.mem_append.mp h1 with h2 | h2
          · exact hacc ch h2
          · exact hexLineMatch_chars line g hg ch (mem_of_mem_pyStrip g ch h2)
        · have hsp : ch = ' ' := by simpa using h1
          rw [hsp]
          decide

/-- Tokens produced by the whitespace split of a hex-and-whitespace string
are nonempty and all-hex. -/
theorem splitWsGo_tokens :
    ∀ (s curRev : List Char),
      (∀ ch ∈ curRev, isUpHexChar ch = true) →
      (∀ ch ∈ s, (isUpHexChar ch || pyIsSpace ch) = true) →
      ∀ tok ∈ splitWsGo curRev s, tok ≠ [] ∧ ∀ ch ∈ tok, isUpHexChar ch = true
  | [], curRev, hcur, _ => by
    intro tok htok
    simp only [splitWsGo] at htok
    by_cases hemp : curRev.isEmpty = true
    · rw [if_pos hemp] at htok
      simp at htok
    · rw [if_neg hemp] at htok
      have htk : tok = curRev.reverse := by simpa using htok
      subst htk
      have hne : curRev ≠ [] := fun hn => hemp (by rw [hn]; rfl)
      exact ⟨fun habs => hne (List.reverse_eq_nil_iff.mp habs),
        fun ch hch => hcur ch (List.mem_reverse.mp hch)⟩
  | c :: t, curRev, hcur, hs => by
    intro tok htok
    simp only [splitWsGo] at htok
    by_cases hsp : pyIsSpace c = true
    · rw [if_pos hsp] at htok
      by_cases hemp : curRev.isEmpty = true
      · rw [if_pos hemp] at htok
        exact splitWsGo_tokens t [] (by simp)
          (fun ch hch => hs ch (List.mem_cons_of_mem c hch)) tok htok
      · rw [if_neg hemp] at htok
        rcases List.mem_cons.mp htok with h1 | h1
        · subst h1
          have hne : curRev ≠ [] := fun hn => hemp (by rw [hn]; rfl)
          exact ⟨fun habs => hne (List.reverse_eq_nil_iff.mp habs),
            fun ch hch => hcur ch (List.mem_reverse.mp hch)⟩
        · exact splitWsGo_tokens t [] (by simp)
            (fun ch hch => hs ch (List.mem_cons_of_mem c hch)) tok h1
    · rw [if_neg hsp] at htok
      refine splitWsGo_tokens t (c :: curRev) ?_
        (fun ch hch => hs ch (List.mem_cons_of_mem c hch)) tok htok
      intro ch hch
      rcases List.mem_cons.mp hch with h1 | h1
      · subst h1
        have hcls := hs ch (List.mem_cons_self ch t)
        have hsp2 : pyIsSpace ch = false := by
          revert hsp; cases pyIsSpace ch <;> simp
        simpa [hsp2] using hcls
      · exact hcur ch h1

/-- Every token of a block's dump lines is a nonempty string of uppercase
hex digits. -/
theorem blockTokens_hex (block : List Char) :
    ∀ tok ∈ blockTokens block, tok ≠ [] ∧ ∀ ch ∈ tok, isUpHexChar ch = true := by
  intro tok htok
  unfold blockTokens pySplitWs at htok
  refine splitWsGo_tokens _ [] (by simp) ?_ tok htok
  intro ch hch
  exact hexAccum_chars _ [] (by simp) ch (mem_of_mem_pyStrip _ ch hch)

/-- One hex digit is below 16. -/
theorem hexDigitVal_lt (c : Char) (h : isUpHexChar c = true) : hexDigitVal c < 16 := by
  simp only [isUpHexChar, isDigitChar, Bool.or_eq_true, Bool.and_eq_true,
    decide_eq_true_eq] at h
  unfold hexDigitVal
  split_ifs with h1 h2 <;> omega

/-- Base-16 accumulation of hex digits stays below the positional bound. -/
theorem hexVal_foldl_le :
    ∀ (tok : List Char) (a : Nat), (∀ ch ∈ tok, isUpHexChar ch = true) →
      tok.foldl (fun x c => 16 * x + hexDigitVal c) a ≤
        a * 16 ^ tok.length + (16 ^ tok.length - 1)
  | [], a, _ => by simp
  | c :: t, a, h => by
    simp only [List.foldl_cons, List.length_cons]
    have hd : hexDigitVal c < 16 := hexDigitVal_lt c (h c (List.mem_cons_self c t))
    have ih := hexVal_foldl_le t (16 * a + hexDigitVal c)
      (fun ch hch => h ch (List.mem_cons_of_mem c hch))
    have hB : 1 ≤ 16 ^ t.length := Nat.one_le_pow _ _ (by omega)
    have hmul : (16 * a + hexDigitVal c) * 16 ^ t.length ≤
        (16 * a + 15) * 16 ^ t.length :=
      Nat.mul_le_mul_right _ (by omega)
    have he1 : (16 * a + 15) * 16 ^ t.length =
        a * (16 ^ t.length * 16) + 15 * 16 ^ t.length := by ring
    have he2 : 16 ^ (t.length + 1) = 16 ^ t.length * 16 := by ring
    calc t.foldl (fun x ch => 16 * x + hexDigitVal ch) (16 * a + hexDigitVal c)
        ≤ (16 * a + hexDigitVal c) * 16 ^ t.length + (16 ^ t.length - 1) := ih
      _ ≤ (16 * a + 15) * 16 ^ t.length + (16 ^ t.length - 1) :=
        Nat.add_le_add_right hmul _
      _ = a * (16 ^ t.length * 16) + 15 * 16 ^ t.length + (16 ^ t.length - 1) := by
        rw [he1]
      _ = a * (16 ^ t.length * 16) + (15 * 16 ^ t.length + (16 ^ t.length - 1)) :=
        Nat.add_assoc _ _ _
      _ = a * (16 ^ t.length * 16) + (16 ^ t.length * 16 - 1) := by
        have hlin : 15 * 16 ^ t.length + (16 ^ t.length - 1) = 16 ^ t.length * 16 - 1 := by
          omega
        rw [hlin]
      _ = a * 16 ^ (t.length + 1) + (16 ^ (t.length + 1) - 1) := by rw [he2]

/-- The value of an all-hex token is below `16 ^ length`. -/
theorem hexVal_lt (tok : List Char) (h : ∀ ch ∈ tok, isUpHexChar ch = true) :
    hexVal tok < 16 ^ tok.length := by
  have h1 := hexVal_foldl_le tok 0 h
  have hB : 1 ≤ 16 ^ tok.length := Nat.one_le_pow _ _ (by omega)
  simp only [Nat.zero_mul, Nat.zero_add] at h1
  unfold hexVal
  omega

/-- Inversion of a produced entry: its stored block is the processed block
and its byte list is the hex tokens of that block, valued in base 16. -/
theorem parseBlock_entry (b : List Char) (e : LogEntry)
    (h : parseBlock b = BlockResult.entry e) :
    e.raw_block = b ∧ e.hex_data = (blockTokens b).map hexVal := by
  simp only [parseBlock] at h
  split at h
  · exact BlockResult.noConfusion h
  · split at h
    · exact BlockResult.noConfusion h
    · split at h
      · exact BlockResult.noConfusion h
      · split at h
        · exact BlockResult.noConfusion h
        · cases h
          exact ⟨rfl, rfl⟩

/-- Every entry of a successful `parseBlocks` run comes from one of the
blocks. -/
theorem parseBlocks_mem :
    ∀ (bs : List (List Char)) (es : List LogEntry),
      parseBlocks bs = Except.ok es →
      ∀ e ∈ es, ∃ b, b ∈ bs ∧ parseBlock b = BlockResult.entry e
  | [], es, h, e, he => by
    simp only [parseBlocks] at h
    cases h
    simp at he
  | b :: bs, es, h, e, he => by
    simp only [parseBlocks] at h
    cases hpb : parseBlock b with
    | skip =>
      rw [hpb] at h
      obtain ⟨b2, hb2, hp⟩ := parseBlocks_mem bs es h e he
      exact ⟨b2, List.mem_cons_of_mem b hb2, hp⟩
    | exn =>
      rw [hpb] at h
      exact Except.noConfusion h
    | entry e2 =>
      rw [hpb] at h
      cases hrest : parseBlocks bs with
      | error u =>
        rw [hrest] at h
        simp only [Except.map] at h
        exact Except.noConfusion h
      | ok es2 =>
        rw [hrest] at h
        simp only [Except.map, Except.ok.injEq] at h
        subst h
        rcases List.mem_cons.mp he with h1 | h1
        · exact ⟨b, List.mem_cons_self b bs, by rw [← h1] at hpb; exact hpb⟩
        · obtain ⟨b2, hb2, hp⟩ := parseBlocks_mem bs es2 hrest e h1
          exact ⟨b2, List.mem_cons_of_mem b hb2, hp⟩

/-- C1 (amended): every element of a parsed entry's byte sequence is the
base-16 value of a nonempty all-hex-digit token captured from the block's
dump lines; when every such token has at most 2 hex digits — as in the
documented dump-line grammar — every element lies within 0–255.  (A dump
line carrying a longer hex token yields a larger element; see the
counterexample.) -/
theorem C1_hex_token_range (text : String) (entries : List LogEntry)
    (h : parse_log text = Except.ok entries) (e : LogEntry) (he : e ∈ entries) :
    e.hex_data = (blockTokens e.raw_block).map hexVal ∧
    (∀ tok ∈ blockTokens e.raw_block, tok ≠ [] ∧ ∀ ch ∈ tok, isUpHexChar ch = true) ∧
    ((∀ tok ∈ blockTokens e.raw_block, tok.length ≤ 2) →
      ∀ v ∈ e.hex_data, v ≤ 255) := by
  obtain ⟨b, _, hpb⟩ := parseBlocks_mem _ entries h e he
  obtain ⟨hraw, hhex⟩ := parseBlock_entry b e hpb
  subst hraw
  refine ⟨hhex, blockTokens_hex e.raw_block, ?_⟩
  intro hlen v hv
  rw [hhex] at hv
  obtain ⟨tok, htok, hveq⟩ := List.mem_map.mp hv
  have hlt := hexVal_lt tok (blockTokens_hex e.raw_block tok htok).2
  have hl2 := hlen tok htok
  have hpow : 16 ^ tok.length ≤ 256 := by
    calc 16 ^ tok.length ≤ 16 ^ 2 := Nat.pow_le_pow_right (by omega) hl2
      _ = 256 := by norm_num
  omega

set_option maxRecDepth 16384 in
/-- C1 counterexample: on a concrete log text whose dump line carries the
3-hex-digit token `ABC`, `parse_log` produces a byte-sequence element 2748,
which is outside 0–255 — so the claimed invariant fails for arbitrary
input texts. -/
theorem C1_hex_token_range_counterexample :
    (parse_log c1Text).map (fun es => es.map LogEntry.hex_data) =
      Except.ok [[2748]] ∧ ¬(2748 ≤ 255) :=
  ⟨rfl, by omega⟩

set_option maxRecDepth 16384 in
/-- C1 witness: on a concrete log text whose dump line carries only the
2-hex-digit token `41`, the parsed element is 65 and the 0–255 bound
holds. -/
theorem C1_hex_token_range_witness :
    (c1OkEntries.headD default).hex_data = [65] ∧
    ∀ v ∈ (c1OkEntries.headD default).hex_data, v ≤ 255 := by
  have h := C1_hex_token_range c1OkText c1OkEntries rfl
    (c1OkEntries.headD default) (by decide)
  exact ⟨h.1.trans (by rfl), h.2.2 (by decide)⟩
